import Mathlib

/-!
Verification development for the Notion → Jekyll sync script.

The script fetches published pages from a remote paginated API, converts
their blocks to Markdown, serializes Jekyll front matter carrying a stable
identity token, and reconciles the result against the local file set.
This file is a shallow embedding of that script: each JavaScript function
is translated to an executable Lean definition; external effects (the
remote API, the file system) are explicit parameters.
-/

/-! ## Character utilities (JS semantics, ASCII fragment) -/

/-- JS whitespace characters recognised by the embedding (the regex class
backslash-s and String.prototype.trim, restricted to ASCII). -/
def isJsWs (c : Char) : Bool :=
  c = ' ' || c = '\t' || c = '\n' || c = '\r' || c = '\x0b' || c = '\x0c'

/-- The JS regex word class [A-Za-z0-9_]. -/
def isWordChar (c : Char) : Bool :=
  (97 ≤ c.toNat && c.toNat ≤ 122) || (65 ≤ c.toNat && c.toNat ≤ 90) ||
  (48 ≤ c.toNat && c.toNat ≤ 57) || c = '_'

/-- The character class [a-f0-9-] used to match the Notion identity token. -/
def isHexDash (c : Char) : Bool :=
  (97 ≤ c.toNat && c.toNat ≤ 102) || (48 ≤ c.toNat && c.toNat ≤ 57) || c = '-'

/-- ASCII uppercase letter test. -/
def isUpperAscii (c : Char) : Bool :=
  65 ≤ c.toNat && c.toNat ≤ 90

/-- ASCII lowercasing, mirroring Char.toLower on the ASCII range (the
script's toLowerCase call is only exercised on ASCII titles). -/
def jsToLower (c : Char) : Char := Char.toLower c

/-- JS String.prototype.trim over the ASCII whitespace set. -/
def trimJs (s : String) : String :=
  ⟨((s.data.dropWhile isJsWs).reverse.dropWhile isJsWs).reverse⟩

/-- Array.prototype.join with a newline separator, as used on the
accumulated line arrays, expressed at the character level. -/
def joinNl : List String → List Char
  | [] => []
  | l :: ls =>
    match ls with
    | [] => l.data
    | _ :: _ => l.data ++ '\n' :: joinNl ls

/-- String form of `joinNl` (lines.join with a newline). -/
def joinLines (ls : List String) : String := ⟨joinNl ls⟩

/-! ## Rich text model and `richTextToMarkdown` -/

/-- The annotation object carried by a Notion rich-text item; every field
may be absent, mirroring the dynamic JS object. -/
structure Annotations where
  bold : Option Bool := none
  italic : Option Bool := none
  strikethrough : Option Bool := none
  code : Option Bool := none
deriving Repr, DecidableEq

/-- One Notion rich-text item as read by the script. -/
structure RichItem where
  plain_text : Option String := none
  annotations : Option Annotations := none
  href : Option String := none
deriving Repr, DecidableEq

/-- JS truthiness of an annotation field read through two optional layers
(`item.annotations ?? \x7b\x7d`, then a possibly absent boolean field). -/
def annGet (f : Annotations → Option Bool) (a : Option Annotations) : Bool :=
  match a with
  | none => false
  | some x => (f x).getD false

/-- Translation of the per-item body of `richTextToMarkdown` (part_002
lines 44–59): code markers, then combined or single emphasis, then
strikethrough, then link wrapping. -/
def richTextItemToMarkdown (item : RichItem) : String :=
  let text0 := item.plain_text.getD ""
  if text0 = "" then ""
  else
    let ann := item.annotations
    let t1 := if annGet (·.code) ann then "`" ++ text0 ++ "`" else text0
    let t2 :=
      if annGet (·.bold) ann && annGet (·.italic) ann then "***" ++ t1 ++ "***"
      else if annGet (·.bold) ann then "**" ++ t1 ++ "**"
      else if annGet (·.italic) ann then "*" ++ t1 ++ "*"
      else t1
    let t3 := if annGet (·.strikethrough) ann then "~~" ++ t2 ++ "~~" else t2
    match item.href with
    | some h => if h = "" then t3 else "[" ++ t3 ++ "](" ++ h ++ ")"
    | none => t3

/-- Translation of `richTextToMarkdown` (part_002 line 43): map the items
and join with the empty separator. -/
def richTextToMarkdown (items : List RichItem) : String :=
  String.join (items.map richTextItemToMarkdown)

/-! Stage-by-stage reformulation of the per-span rule, following the
specification's wording: four transformation stages applied in a fixed
order with link wrapping outermost. Used to state claim C4. -/

/-- Stage 1 of the specified span pipeline: code markers. -/
def codeStage (ann : Option Annotations) (t : String) : String :=
  if annGet (·.code) ann then "`" ++ t ++ "`" else t

/-- Stage 2 of the specified span pipeline: combined or single emphasis. -/
def emphStage (ann : Option Annotations) (t : String) : String :=
  if annGet (·.bold) ann && annGet (·.italic) ann then "***" ++ t ++ "***"
  else if annGet (·.bold) ann then "**" ++ t ++ "**"
  else if annGet (·.italic) ann then "*" ++ t ++ "*"
  else t

/-- Stage 3 of the specified span pipeline: strikethrough markers. -/
def strikeStage (ann : Option Annotations) (t : String) : String :=
  if annGet (·.strikethrough) ann then "~~" ++ t ++ "~~" else t

/-- Stage 4 of the specified span pipeline: link wrapping, outermost. -/
def linkStage (href : Option String) (t : String) : String :=
  match href with
  | some h => if h = "" then t else "[" ++ t ++ "](" ++ h ++ ")"
  | none => t

/-- The specification's description of the span formatter: empty text maps
to empty output; otherwise the four stages compose with the link stage
applied last. -/
def formatSpanSpec (item : RichItem) : String :=
  if item.plain_text.getD "" = "" then ""
  else
    linkStage item.href
      (strikeStage item.annotations
        (emphStage item.annotations
          (codeStage item.annotations (item.plain_text.getD ""))))

/-! ## Block model and `blockToMarkdown` -/

/-- A url-carrying object (`external` or `file` payloads). -/
structure UrlRef where
  url : Option String := none
deriving Repr, DecidableEq

/-- Payload of an image or video block: a storage-type tag plus the two
possible url carriers and an optional caption. -/
structure MediaData where
  type : String
  external : Option UrlRef := none
  file : Option UrlRef := none
  caption : Option (List RichItem) := none
deriving Repr, DecidableEq

/-- Icon object on a callout block. -/
structure IconData where
  emoji : Option String := none
deriving Repr, DecidableEq

/-- A Notion content block as consumed by the script. The `other`
constructor carries the raw type string of any block whose payload the
switch does not handle (including a recognised type tag whose payload
object is missing, which the script also maps to null). -/
inductive Block where
  | paragraph (rich_text : List RichItem)
  | heading_1 (rich_text : List RichItem)
  | heading_2 (rich_text : List RichItem)
  | heading_3 (rich_text : List RichItem)
  | bulleted_list_item (rich_text : List RichItem)
  | numbered_list_item (rich_text : List RichItem)
  | to_do (checked : Bool) (rich_text : List RichItem)
  | code (language : Option String) (rich_text : Option (List RichItem))
      (caption : Option (List RichItem))
  | quote (rich_text : List RichItem)
  | callout (icon : Option IconData) (rich_text : List RichItem)
  | divider
  | image (data : MediaData)
  | video (data : MediaData)
  | bookmark (url : Option String)
  | link_preview (url : Option String)
  | toggle (rich_text : List RichItem)
  | table_of_contents
  | child_page
  | child_database
  | other (typeName : String)
deriving Repr, DecidableEq

/-- The JS `block.type` string of a block. -/
def Block.typeName : Block → String
  | .paragraph _ => "paragraph"
  | .heading_1 _ => "heading_1"
  | .heading_2 _ => "heading_2"
  | .heading_3 _ => "heading_3"
  | .bulleted_list_item _ => "bulleted_list_item"
  | .numbered_list_item _ => "numbered_list_item"
  | .to_do _ _ => "to_do"
  | .code _ _ _ => "code"
  | .quote _ => "quote"
  | .callout _ _ => "callout"
  | .divider => "divider"
  | .image _ => "image"
  | .video _ => "video"
  | .bookmark _ => "bookmark"
  | .link_preview _ => "link_preview"
  | .toggle _ => "toggle"
  | .table_of_contents => "table_of_contents"
  | .child_page => "child_page"
  | .child_database => "child_database"
  | .other t => t

/-- Url resolution inside the image and video cases (part_002 lines
120–122 and 128–130): dispatch on the storage-type tag. -/
def mediaUrl (d : MediaData) : String :=
  if d.type = "external" then ((d.external.bind (·.url)).getD "")
  else ((d.file.bind (·.url)).getD "")

/-- Translation of `blockToMarkdown` (part_002 lines 69–158). Returns
none where the script returns null (omitted blocks). -/
def blockToMarkdown : Block → Option String
  | .paragraph rt => some (richTextToMarkdown rt)
  | .heading_1 rt => some ("# " ++ richTextToMarkdown rt)
  | .heading_2 rt => some ("## " ++ richTextToMarkdown rt)
  | .heading_3 rt => some ("### " ++ richTextToMarkdown rt)
  | .bulleted_list_item rt => some ("- " ++ richTextToMarkdown rt)
  | .numbered_list_item rt => some ("1. " ++ richTextToMarkdown rt)
  | .to_do checked rt =>
    some ((if checked then "- [x] " else "- [ ] ") ++ richTextToMarkdown rt)
  | .code language rich_text caption =>
    let lang := match language with
      | some l => if l ≠ "" && l ≠ "plain text" then l else ""
      | none => ""
    let codeText := String.join ((rich_text.getD []).map (fun r => r.plain_text.getD ""))
    let cap := richTextToMarkdown (caption.getD [])
    let block_md := "```" ++ lang ++ "\n" ++ codeText ++ "\n```"
    some (if cap ≠ "" then block_md ++ "\n*" ++ cap ++ "*" else block_md)
  | .quote rt => some ("> " ++ richTextToMarkdown rt)
  | .callout icon rt =>
    let em := (icon.bind (·.emoji)).getD ""
    let iconMd := if em ≠ "" then em ++ " " else ""
    some ("> " ++ iconMd ++ richTextToMarkdown rt)
  | .divider => some "---"
  | .image d =>
    some ("![" ++ richTextToMarkdown (d.caption.getD []) ++ "](" ++ mediaUrl d ++ ")")
  | .video d =>
    let cap := richTextToMarkdown (d.caption.getD [])
    some (if cap ≠ "" then "[▶ " ++ cap ++ "](" ++ mediaUrl d ++ ")"
          else "[▶ Watch video](" ++ mediaUrl d ++ ")")
  | .bookmark url => some ("[" ++ url.getD "" ++ "](" ++ url.getD "" ++ ")")
  | .link_preview url => some ("[" ++ url.getD "" ++ "](" ++ url.getD "" ++ ")")
  | .toggle rt =>
    some ("<details>\n<summary>" ++ richTextToMarkdown rt ++ "</summary>\n\n</details>")
  | .table_of_contents => some ""
  | .child_page => none
  | .child_database => none
  | .other _ => none

/-! ## Document assembly: `blocksToMarkdown` -/

/-- Membership of a type string in the script's LIST_TYPES set. -/
def isListType (t : String) : Bool :=
  t = "bulleted_list_item" || t = "numbered_list_item" || t = "to_do"

/-- Translation of the indexed loop of `blocksToMarkdown` (part_002 lines
172–193): `prev` is the previous element of the input array (blocks[i-1]),
whether or not it was omitted, and `lines` is the accumulated array. -/
def blocksLines : List String → Option Block → List Block → List String
  | lines, _, [] => lines
  | lines, prev, b :: rest =>
    match blockToMarkdown b with
    | none => blocksLines lines (some b) rest
    | some md =>
      let isL := isListType b.typeName
      let prevL := match prev with
        | some p => isListType p.typeName
        | none => false
      let lines1 := if lines.length > 0 && !(isL && prevL) then lines ++ [""] else lines
      let lines2 := if md ≠ "" then lines1 ++ [md] else lines1
      blocksLines lines2 (some b) rest

/-- Translation of `blocksToMarkdown` (part_002 lines 172–196): join the
accumulated lines with newlines and trim the result. -/
def blocksToMarkdown (blocks : List Block) : String :=
  trimJs (joinLines (blocksLines [] none blocks))

/-- Direct (non-accumulator) description of the assembly rule: walk the
blocks with the input-order predecessor at hand and a flag recording
whether any output line exists yet; a blank separator line precedes each
non-omitted block once output exists, unless both the block and its
input-order predecessor are list-family kinds. -/
def specLines (started : Bool) (prev : Option Block) : List Block → List String
  | [] => []
  | b :: rest =>
    match blockToMarkdown b with
    | none => specLines started (some b) rest
    | some md =>
      let isL := isListType b.typeName
      let prevL := match prev with
        | some p => isListType p.typeName
        | none => false
      let sep := started && !(isL && prevL)
      (if sep then [""] else []) ++ (if md ≠ "" then [md] else []) ++
        specLines (started || md ≠ "") (some b) rest

/-! ## Paginated fetching -/

/-- One response of a cursor-paginated listing operation. -/
structure PageResp (α : Type) where
  results : List α
  has_more : Bool
  next_cursor : Option String
deriving Repr

/-- Translation of the do-while pagination loop shared by
`fetchAllBlocks` (part_002 lines 203–218) and `fetchPublishedPages`
(lines 225–243): call the operation, append its results, set the cursor
to the next cursor when the response has more pages and to undefined
otherwise, and continue while the cursor is truthy — an absent cursor
(undefined or null) and the empty string are both falsy in the JS while
condition and stop the loop. The fuel bounds the number of remote calls;
none signals fuel exhaustion. -/
def fetchLoop {α : Type} (op : Option String → PageResp α) :
    Nat → Option String → List α → Option (List α)
  | 0, _, _ => none
  | fuel + 1, cursor, acc =>
    let res := op cursor
    let acc2 := acc ++ res.results
    match (if res.has_more then res.next_cursor else none) with
    | none => some acc2
    | some c => if c = "" then some acc2 else fetchLoop op fuel (some c) acc2

/-- `fetchAllBlocks` as the pagination loop applied to the remote
children operation, starting with no cursor and an empty accumulator. -/
def fetchAllBlocks (op : Option String → PageResp Block) (fuel : Nat) :
    Option (List Block) :=
  fetchLoop op fuel none []

/-- Well-formed cursor chain: the responses a listing operation returns
when driven from a given cursor, each response pointing at the next
through a truthy (non-empty) continuation cursor, with the final
response indicating no further pages — no more-pages flag, or a falsy
(absent or empty) next cursor. -/
inductive ApiChain {α : Type} (op : Option String → PageResp α) :
    Option String → List (PageResp α) → Prop
  | last (cur : Option String) (r : PageResp α) :
      op cur = r →
      (r.has_more = false ∨ r.next_cursor = none ∨ r.next_cursor = some "") →
      ApiChain op cur [r]
  | more (cur : Option String) (r : PageResp α) (c : String)
      (rest : List (PageResp α)) :
      op cur = r → r.has_more = true → r.next_cursor = some c → c ≠ "" →
      ApiChain op (some c) rest → ApiChain op cur (r :: rest)

/-! ## Metadata extraction -/

/-! Translation of `titleToSlug` (part_002 lines 250–258): lowercase,
strip characters outside word/space/hyphen, trim, collapse whitespace runs
to single hyphens, collapse hyphen runs, strip one leading and one
trailing hyphen. -/

/-- Collapse every maximal run of characters satisfying p into the single
replacement character r (the g-flagged regex replace of a one-or-more
class with a one-character string). -/
def collapseRuns (p : Char → Bool) (r : Char) : Bool → List Char → List Char
  | _, [] => []
  | inRun, c :: rest =>
    if p c then
      (if inRun then collapseRuns p r true rest
       else r :: collapseRuns p r true rest)
    else c :: collapseRuns p r false rest

/-- Remove one leading hyphen (the start-anchored half of the edge
replace at the end of titleToSlug). -/
def dropLeadHyphen : List Char → List Char
  | '-' :: t => t
  | l => l

/-- Remove one trailing hyphen (the end-anchored half of the edge
replace at the end of titleToSlug). -/
def dropTrailHyphen (l : List Char) : List Char :=
  match l.reverse with
  | '-' :: t => t.reverse
  | _ => l

/-- Remove one leading and one trailing hyphen (the anchored alternation
replace at the end of titleToSlug). -/
def stripEdgeHyphens (l : List Char) : List Char :=
  dropTrailHyphen (dropLeadHyphen l)

/-- Slugify a title into a url-safe string (part_002 lines 250–258). -/
def titleToSlug (title : String) : String :=
  let l0 := title.data.map jsToLower
  let l1 := l0.filter (fun c => isWordChar c || isJsWs c || c = '-')
  let l2 := ((l1.dropWhile isJsWs).reverse.dropWhile isJsWs).reverse
  let l3 := collapseRuns isJsWs '-' false l2
  let l4 := collapseRuns (fun c => c = '-') '-' false l3
  ⟨stripEdgeHyphens l4⟩

/-- Date payload of a date-typed property. -/
structure DateVal where
  start : Option String := none
deriving Repr, DecidableEq

/-- One option of a multi-select property. -/
structure SelectVal where
  name : String
deriving Repr, DecidableEq

/-- A files-property entry: external or hosted representation. -/
structure FileRef where
  external : Option UrlRef := none
  file : Option UrlRef := none
deriving Repr, DecidableEq

/-- A property value as the script reads it: a dynamic object of which
only these fields are accessed, each possibly absent. -/
structure PropValue where
  title : Option (List RichItem) := none
  rich_text : Option (List RichItem) := none
  date : Option DateVal := none
  multi_select : Option (List SelectVal) := none
  files : Option (List FileRef) := none
  url : Option String := none
  checkbox : Option Bool := none
deriving Repr, DecidableEq

/-- The page property bag, restricted to the property names the script
accesses. Fields publishDate, coverImage and canonicalURL stand for the
JS keys "Publish Date", "Cover Image" and "Canonical URL". -/
structure Properties where
  Title : Option PropValue := none
  title : Option PropValue := none
  Name : Option PropValue := none
  Slug : Option PropValue := none
  slug : Option PropValue := none
  publishDate : Option PropValue := none
  Date : Option PropValue := none
  Published : Option PropValue := none
  Tags : Option PropValue := none
  Description : Option PropValue := none
  Excerpt : Option PropValue := none
  Summary : Option PropValue := none
  coverImage : Option PropValue := none
  canonicalURL : Option PropValue := none
  Featured : Option PropValue := none
deriving Repr, DecidableEq

/-- The metadata record returned by extractMeta. -/
structure PostMeta where
  title : String
  slug : String
  date : String
  tags : List String
  description : String
  coverImage : String
  canonicalUrl : String
  featured : Bool
deriving Repr, DecidableEq

/-- Translation of the body of `extractMeta` (part_002 lines 264–306) on
a present property bag; `today` is the current date the script would
substitute for a missing publish date. -/
def extractMeta (today : String) (props : Properties) : PostMeta :=
  let titleProp := props.Title <|> props.title <|> props.Name
  let titleVal :=
    (((titleProp.bind (·.title)).bind List.head?).bind (·.plain_text)) <|>
    (((titleProp.bind (·.rich_text)).bind List.head?).bind (·.plain_text))
  let titleStr := titleVal.getD "Untitled"
  let slugProp := props.Slug <|> props.slug
  let slugRaw :=
    ((((slugProp.bind (·.rich_text)).bind List.head?).bind (·.plain_text)).map trimJs)
  let slugStr := match slugRaw with
    | some s => if s = "" then titleToSlug titleStr else s
    | none => titleToSlug titleStr
  let dateProp := props.publishDate <|> props.Date <|> props.Published
  let dateStr := ((dateProp.bind (·.date)).bind (·.start)).getD today
  let tags := ((props.Tags.bind (·.multi_select)).getD []).map (·.name)
  let descProp := props.Description <|> props.Excerpt <|> props.Summary
  let descStr :=
    (((((descProp.bind (·.rich_text)).bind List.head?).bind (·.plain_text)).map trimJs)).getD ""
  let coverFiles := (props.coverImage.bind (·.files)).getD []
  let coverStr :=
    (((coverFiles.head?.bind (·.external)).bind (·.url)) <|>
     ((coverFiles.head?.bind (·.file)).bind (·.url))).getD ""
  let canonicalStr := (props.canonicalURL.bind (·.url)).getD ""
  let featuredVal := (props.Featured.bind (·.checkbox)).getD false
  { title := titleStr, slug := slugStr, date := dateStr, tags := tags,
    description := descStr, coverImage := coverStr,
    canonicalUrl := canonicalStr, featured := featuredVal }

/-- A page record of the published-pages listing (id plus property bag;
a missing bag makes metadata extraction throw). -/
structure NPage where
  id : String
  properties : Option Properties
deriving Repr, DecidableEq

/-- `fetchPublishedPages` as the pagination loop applied to the database
query operation, starting with no cursor and an empty accumulator. -/
def fetchPublishedPages (op : Option String → PageResp NPage) (fuel : Nat) :
    Option (List NPage) :=
  fetchLoop op fuel none []

/-- `extractMeta` on a full page record: reading the properties of a page
without a property bag throws, which the caller catches. -/
def extractMetaE (today : String) (page : NPage) : Except String PostMeta :=
  match page.properties with
  | none => .error "cannot read properties of undefined"
  | some props => .ok (extractMeta today props)

/-! ## Front matter serialization -/

/-- One escaped character of the JSON string encoding used by
JSON.stringify on strings. -/
def jsonEscapeChar (c : Char) : List Char :=
  if c = '"' then ['\\', '"']
  else if c = '\\' then ['\\', '\\']
  else if c = '\n' then ['\\', 'n']
  else if c = '\r' then ['\\', 'r']
  else if c = '\t' then ['\\', 't']
  else if c = '\x08' then ['\\', 'b']
  else if c = '\x0c' then ['\\', 'f']
  else if c.toNat < 32 then
    ['\\', 'u', '0', '0',
     "0123456789abcdef".data.getD (c.toNat / 16) '0',
     "0123456789abcdef".data.getD (c.toNat % 16) '0']
  else [c]

/-- JSON escaping of a character list. -/
def jsonEscapeList : List Char → List Char
  | [] => []
  | c :: rest => jsonEscapeChar c ++ jsonEscapeList rest

/-- JSON.stringify on a string value: double quotes around the escaped
character sequence. -/
def jsonStringify (s : String) : String :=
  ⟨'"' :: (jsonEscapeList s.data ++ ['"'])⟩

/-- Array.prototype.join with the two-character comma-space separator,
as used on the quoted tag list. -/
def joinCommaSp : List String → String
  | [] => ""
  | [l] => l
  | l :: ls => l ++ ", " ++ joinCommaSp ls

/-- The lines `buildFrontMatter` pushes before the identity-token line
(part_002 lines 314–340): the fixed opening lines and the conditional
optional lines. -/
def fmPreLines (meta : PostMeta) : List String :=
  let base := ["---", "layout: post", "title: " ++ jsonStringify meta.title,
    "date: " ++ meta.date, "slug: " ++ meta.slug]
  let l1 := if meta.tags.length > 0 then
      base ++ ["tags: [" ++ joinCommaSp (meta.tags.map jsonStringify) ++ "]"]
    else base
  let l2 := if meta.description ≠ "" then
      l1 ++ ["excerpt: " ++ jsonStringify meta.description] else l1
  let l3 := if meta.coverImage ≠ "" then
      l2 ++ ["cover_image: " ++ jsonStringify meta.coverImage] else l2
  let l4 := if meta.canonicalUrl ≠ "" then
      l3 ++ ["canonical_url: " ++ jsonStringify meta.canonicalUrl] else l3
  if meta.featured then l4 ++ ["featured: true"] else l4

/-- The line array built by `buildFrontMatter` (part_002 lines 313–346):
the opening and optional lines, then the identity-token line and the
closing marker. -/
def buildFrontMatterLines (meta : PostMeta) (notionId : String) : List String :=
  fmPreLines meta ++ ["notion_id: " ++ jsonStringify notionId, "---"]

/-- Translation of `buildFrontMatter`: the lines joined with newlines. -/
def buildFrontMatter (meta : PostMeta) (notionId : String) : String :=
  joinLines (buildFrontMatterLines meta notionId)

/-- Translation of `postFilename` (part_002 lines 352–354). -/
def postFilename (date slug : String) : String :=
  date ++ "-" ++ slug ++ ".md"

/-! ## Identity token extraction -/

/-- The fixed key of the identity-token header line. -/
def notionIdKey : List Char := ['n', 'o', 't', 'i', 'o', 'n', '_', 'i', 'd', ':']

/-- The regex tail after the key: greedy whitespace, an optional double
quote, then exactly 36 characters of the hex-dash class. Backtracking of
the greedy whitespace or the optional quote cannot produce a match this
direct reading misses, because neither a whitespace character nor a
double quote belongs to the hex-dash class. -/
def matchAfterKey (cs : List Char) : Option (List Char) :=
  let r1 := cs.dropWhile isJsWs
  let r2 := match r1 with
    | '"' :: r => r
    | _ => r1
  let tok := r2.take 36
  if tok.length = 36 && tok.all isHexDash then some tok else none

/-- Scan for the first line-anchored occurrence of the identity-token
pattern: at each line start, try the key and the tail; otherwise advance
one character, tracking whether the next position is a line start. -/
def scanId : Bool → List Char → Option (List Char)
  | _, [] => none
  | atStart, c :: rest =>
    match (if atStart && notionIdKey.isPrefixOf (c :: rest) then
             matchAfterKey ((c :: rest).drop 10)
           else none) with
    | some t => some t
    | none => scanId (c == '\n') rest

/-- Translation of the index-building pattern match (part_002 line 374):
the captured 36-character token of the first multiline-anchored match of
the notion_id pattern in a file's content. -/
def extractNotionId (content : String) : Option String :=
  (scanId true content.data).map (fun l => ⟨l⟩)

/-! ## Reconciliation engine -/

/-- The output directory contents: an association list from filename to
file content (first binding wins on lookup). -/
abbrev FileSys := List (String × String)

/-- Read a file (readFileSync on an existing entry). -/
def fsLookup (fs : FileSys) (n : String) : Option String :=
  List.lookup n fs

/-- writeFileSync: replace any binding of the name and add the new one. -/
def fsWrite (fs : FileSys) (n c : String) : FileSys :=
  (n, c) :: fs.filter (fun p => p.1 != n)

/-- unlinkSync: drop the binding; removing an absent name is a no-op,
matching the tolerated-deletion catch blocks. -/
def fsUnlink (fs : FileSys) (n : String) : FileSys :=
  fs.filter (fun p => p.1 != n)

/-- JS String.prototype.endsWith as used on directory entries. -/
def jsEndsWith (s suffix : String) : Bool :=
  suffix.data.isSuffixOf s.data

/-- JS Map.prototype.set: replace the binding in place if the key exists,
otherwise append it. -/
def mapSet (m : List (String × String)) (k v : String) : List (String × String) :=
  if m.any (fun p => p.1 == k) then
    m.map (fun p => if p.1 == k then (k, v) else p)
  else m ++ [(k, v)]

/-- Build the notion-id → filename index (part_002 lines 370–379): over
the .md directory entries, read each file and record the first
pattern-matched identity token. -/
def buildIndex (files : List String) (fs : FileSys) : List (String × String) :=
  files.foldl (fun m f =>
    match fsLookup fs f with
    | none => m
    | some content =>
      match extractNotionId content with
      | some id => mapSet m id f
      | none => m) []

/-- Outcome counters of one pass. -/
structure Stats where
  created : Nat
  updated : Nat
  unchanged : Nat
  errors : Nat
deriving Repr, DecidableEq

/-- Sum of the four outcome counters. -/
def Stats.total (s : Stats) : Nat :=
  s.created + s.updated + s.unchanged + s.errors

/-- The zero counters at the start of a pass. -/
def Stats.zero : Stats := ⟨0, 0, 0, 0⟩

/-- State threaded through the per-page loop: the file system, the set of
processed page ids, and the counters. -/
structure SyncState where
  fs : FileSys
  processedIds : List String
  stats : Stats
deriving Repr, DecidableEq

/-- The external world of one pass: the published-pages listing result,
the per-page block fetch result, whether a write of a given filename
succeeds, and the current date. -/
structure Env where
  listing : Except String (List NPage)
  blocksOf : String → Except String (List Block)
  writeOk : String → Bool
  today : String

/-- Translation of the per-page loop body of `main` (part_002 lines
398–458): record the id; on metadata failure count an error and continue;
fetch blocks and compose the candidate content; delete the previously
known filename if it changed; skip the write when the on-disk content is
byte-identical; otherwise write and classify created or updated; any
failure of the block fetch or the write is caught and counted. -/
def processPage (env : Env) (existingFiles : List String)
    (idx : List (String × String)) (st : SyncState) (page : NPage) : SyncState :=
  let st := { st with processedIds := st.processedIds ++ [page.id] }
  match extractMetaE env.today page with
  | .error _ => { st with stats := { st.stats with errors := st.stats.errors + 1 } }
  | .ok meta =>
    match env.blocksOf page.id with
    | .error _ => { st with stats := { st.stats with errors := st.stats.errors + 1 } }
    | .ok blocks =>
      let body := blocksToMarkdown blocks
      let fm := buildFrontMatter meta page.id
      let content := fm ++ "\n\n" ++ body ++ "\n"
      let filename := postFilename meta.date meta.slug
      let prevFilename := List.lookup page.id idx
      let fs1 := match prevFilename with
        | some pf => if pf ≠ filename then fsUnlink st.fs pf else st.fs
        | none => st.fs
      let needsWrite : Bool := match fsLookup fs1 filename with
        | some existing => existing != content
        | none => true
      if needsWrite then
        if env.writeOk filename then
          let isNew := prevFilename.isNone && !(existingFiles.contains filename)
          if isNew then
            { st with
              fs := fsWrite fs1 filename content
              stats := { st.stats with created := st.stats.created + 1 } }
          else
            { st with
              fs := fsWrite fs1 filename content
              stats := { st.stats with updated := st.stats.updated + 1 } }
        else
          { st with
            fs := fs1
            stats := { st.stats with errors := st.stats.errors + 1 } }
      else
        { st with
          fs := fs1
          stats := { st.stats with unchanged := st.stats.unchanged + 1 } }

/-- Translation of the stale-entry cleanup (part_002 lines 461–470):
delete the file of every indexed token not seen in this pass. -/
def cleanupStale (processed : List String) (idx : List (String × String))
    (fs : FileSys) : FileSys :=
  idx.foldl (fun acc p => if processed.contains p.1 then acc else fsUnlink acc p.2) fs

/-- Result of one invocation: the final directory, the counters, and the
process exit code. -/
structure RunResult where
  fs : FileSys
  stats : Stats
  exitCode : Nat
deriving Repr, DecidableEq

/-- Translation of `main` (part_002 lines 358–485) under a present
configuration: index the existing .md files, query the published set
(a listing failure exits with code 1 before any reconciliation), process
each page, remove stale entries, and exit non-zero exactly when the
per-item error counter is positive. -/
def mainSync (env : Env) (fs0 : FileSys) : RunResult :=
  let existingFiles := (fs0.map (fun p => p.1)).filter (fun f => jsEndsWith f ".md")
  let idx := buildIndex existingFiles fs0
  match env.listing with
  | .error _ => { fs := fs0, stats := Stats.zero, exitCode := 1 }
  | .ok pages =>
    let st0 : SyncState := { fs := fs0, processedIds := [], stats := Stats.zero }
    let st := pages.foldl (processPage env existingFiles idx) st0
    let fs2 := cleanupStale st.processedIds idx st.fs
    { fs := fs2, stats := st.stats,
      exitCode := if st.stats.errors > 0 then 1 else 0 }

/-! ## Concrete fixtures used by witnesses and counterexamples -/

/-- A one-item plain rich-text array. -/
def plainRich (s : String) : List RichItem :=
  [{ plain_text := some s }]

/-- A title-typed property value carrying the given text. -/
def mkTitleProp (s : String) : PropValue :=
  { title := some (plainRich s) }

/-- A rich-text-typed property value carrying the given text. -/
def mkRichProp (s : String) : PropValue :=
  { rich_text := some (plainRich s) }

/-- A date-typed property value with the given start date. -/
def mkDateProp (s : String) : PropValue :=
  { date := some { start := some s } }

/-- A published page with a title and a publish date and no slug. -/
def scenarioPage (id title date : String) : NPage :=
  { id := id
    properties := some { Title := some (mkTitleProp title)
                         publishDate := some (mkDateProp date) } }

/-- First page of the partial-failure scenario. -/
def pageA : NPage := scenarioPage "30686d15-3727-81e5-bcfc-ea5c70d32c54" "Alpha" "2024-01-01"

/-- Second page of the partial-failure scenario; its block fetch throws. -/
def pageB : NPage := scenarioPage "30686d15-3727-8118-bda9-e9aad1719c7b" "Beta" "2024-01-02"

/-- Third page of the partial-failure scenario. -/
def pageC : NPage := scenarioPage "30686d15-3727-8116-b352-eb0444864019" "Gamma" "2024-01-03"

/-- Environment of the partial-failure scenario: the listing succeeds
with three pages, the middle page's block fetch throws, writes succeed. -/
def envSplit : Env :=
  { listing := .ok [pageA, pageB, pageC]
    blocksOf := fun id =>
      if id = pageB.id then .error "fetch failed"
      else .ok [.paragraph (plainRich "hello")]
    writeOk := fun _ => true
    today := "2024-01-09" }

/-- A property bag with an uppercase verbatim Slug property. -/
def upperSlugProps : Properties :=
  { Title := some (mkTitleProp "My Post")
    Slug := some (mkRichProp "MyPost")
    publishDate := some (mkDateProp "2024-01-01") }

/-- A property bag titled Hello, World! with no slug property. -/
def helloProps : Properties :=
  { Title := some (mkTitleProp "Hello, World!")
    publishDate := some (mkDateProp "2024-02-02") }

/-- A two-page listing operation for the pagination witness. -/
def twoPageOp : Option String → PageResp Block
  | none => { results := [.divider], has_more := true, next_cursor := some "cur1" }
  | some _ => { results := [.child_page], has_more := false, next_cursor := none }

/-- The metadata record of the round-trip witness. -/
def witnessMeta : PostMeta :=
  { title := "A \"quoted\" title", slug := "a-slug", date := "2024-03-04"
    tags := ["x", "y"], description := "d", coverImage := "http://c/img.png"
    canonicalUrl := "", featured := true }

/-- An environment whose listing is empty and whose calls all succeed. -/
def emptyEnv : Env :=
  { listing := .ok []
    blocksOf := fun _ => .ok []
    writeOk := fun _ => true
    today := "2024-01-09" }

/-- A header line that the token scan can safely skip: it contains no
newline and does not start with the letter n of the identity key. -/
def lineSafe (y : String) : Prop :=
  (∀ c ∈ y.data, c ≠ '\n') ∧ y.data.head? ≠ some 'n'

/-! ## Theorems -/

/-- C4: for every text span, the formatter applies code markers first,
then combined or single emphasis, then strikethrough, then link wrapping
outermost; a span with empty text yields empty output regardless of
annotations or link; absent annotation fields are treated as unset; and
the bold+italic+link example renders with link syntax outermost around
combined emphasis markers. -/
theorem c4_span_format_order :
    (∀ item : RichItem, richTextItemToMarkdown item = formatSpanSpec item) ∧
    (∀ (a : Option Annotations) (h : Option String),
      richTextItemToMarkdown { plain_text := some "", annotations := a, href := h } = "") ∧
    (∀ (t : Option String) (h : Option String),
      richTextItemToMarkdown { plain_text := t, annotations := none, href := h } =
        richTextItemToMarkdown { plain_text := t, annotations := some {}, href := h }) ∧
    richTextItemToMarkdown
      { plain_text := some "t"
        annotations := some { bold := some true, italic := some true }
        href := some "https://x" } = "[***t***](https://x)" :=
  ⟨fun _ => rfl, fun _ _ => rfl, fun _ _ => rfl, rfl⟩

/-- C8: with no slug property in the bag, the resolved slug is the
slugification of the resolved title, and the Hello, World! example
slugifies to hello-world. -/
theorem c8_slug_fallback (today : String) (props : Properties)
    (h1 : props.Slug = none) (h2 : props.slug = none) :
    (extractMeta today props).slug = titleToSlug (extractMeta today props).title ∧
    (extractMeta today helloProps).slug = "hello-world" ∧
    titleToSlug "Hello, World!" = "hello-world" := by
  refine ⟨?_, rfl, rfl⟩
  simp [extractMeta, h1, h2]

/-- Witness for c8_slug_fallback at the Hello, World! fixture. -/
theorem c8_slug_fallback_witness :
    (extractMeta "2024-01-09" helloProps).slug = "hello-world" :=
  (c8_slug_fallback "2024-01-09" helloProps rfl rfl).2.1

/-- Driving the pagination loop along a well-formed cursor chain
accumulates the concatenation of all responses' result lists. -/
theorem fetchLoop_chain {α : Type} (op : Option String → PageResp α)
    (cur : Option String) (ps : List (PageResp α)) (h : ApiChain op cur ps) :
    ∀ acc, fetchLoop op ps.length cur acc =
      some (acc ++ (ps.map (fun r => r.results)).flatten) := by
  induction h with
  | last cur r hop hstop =>
    intro acc
    rcases hstop with h1 | h1 | h1
    · simp [fetchLoop, hop, h1]
    · cases hm : r.has_more <;> simp [fetchLoop, hop, h1, hm]
    · cases hm : r.has_more <;> simp [fetchLoop, hop, h1, hm]
  | more cur r c rest hop hm hn hne _ ih =>
    intro acc
    simp [fetchLoop, hop, hm, hn, hne, ih (acc ++ r.results)]

/-- C5: for every listing split across cursor pages (a well-formed
chain), both paginated fetchers accumulate exactly the order-preserving
concatenation of all pages' item lists. -/
theorem c5_pagination_concat :
    (∀ (op : Option String → PageResp Block) (ps : List (PageResp Block)),
      ApiChain op none ps →
      fetchAllBlocks op ps.length = some ((ps.map (fun r => r.results)).flatten)) ∧
    (∀ (op : Option String → PageResp NPage) (ps : List (PageResp NPage)),
      ApiChain op none ps →
      fetchPublishedPages op ps.length = some ((ps.map (fun r => r.results)).flatten)) := by
  constructor <;> intro op ps h <;>
    simpa [fetchAllBlocks, fetchPublishedPages] using fetchLoop_chain op none ps h []

/-- Witness for c5_pagination_concat on a concrete two-page listing. -/
theorem c5_pagination_concat_witness :
    fetchAllBlocks twoPageOp 2 = some [Block.divider, Block.child_page] := by
  have hchain : ApiChain twoPageOp none
      [{ results := [.divider], has_more := true, next_cursor := some "cur1" },
       { results := [.child_page], has_more := false, next_cursor := none }] :=
    ApiChain.more _ _ "cur1" _ rfl rfl rfl (by decide)
      (ApiChain.last _ _ rfl (Or.inl rfl))
  simpa using c5_pagination_concat.1 twoPageOp _ hchain

/-- A list has positive length exactly when it is not empty (decide
form used by the assembler's separator condition). -/
theorem decide_len_pos_eq {α : Type} (l : List α) :
    decide (l.length > 0) = !l.isEmpty := by
  cases l <;> simp

/-- The accumulator form of the assembly loop agrees with the direct
description: the accumulated lines are the starting lines followed by the
directly described lines, where output-so-far is the emptiness flag. -/
theorem blocksLines_eq_specLines (blocks : List Block) :
    ∀ (lines : List String) (prev : Option Block),
      blocksLines lines prev blocks = lines ++ specLines (!lines.isEmpty) prev blocks := by
  induction blocks with
  | nil => intro lines prev; simp [blocksLines, specLines]
  | cons b rest ih =>
    intro lines prev
    simp only [blocksLines, specLines]
    cases hmd : blockToMarkdown b with
    | none => simpa using ih lines (some b)
    | some md =>
      simp only [decide_len_pos_eq]
      cases hl : lines.isEmpty with
      | true =>
        have hl' : lines = [] := by simpa [List.isEmpty_iff] using hl
        subst hl'
        by_cases hm : md = "" <;> simp [hm, ih, List.isEmpty_iff]
      | false =>
        cases hp : (isListType b.typeName &&
            match prev with
            | some p => isListType p.typeName
            | none => false) with
        | true =>
          by_cases hm : md = "" <;>
            simp [hm, ih, hl, List.isEmpty_iff, List.isEmpty_eq_false] <;>
            cases lines <;> simp_all
        | false =>
          by_cases hm : md = "" <;>
            simp [hm, ih, hl, List.isEmpty_iff, List.isEmpty_eq_false] <;>
            cases lines <;> simp_all

/-- C2 counterexample: with an omitted child-page block between two
bulleted items, the assembler inserts a blank-line separator, because the
adjacency test uses the immediately preceding input block (the omitted
child page), not the preceding non-omitted block as the claim states. -/
theorem c2_assembly_counterexample :
    blocksToMarkdown
      [.bulleted_list_item (plainRich "a"), .child_page,
       .bulleted_list_item (plainRich "b")] = "- a\n\n- b" ∧
    ("- a\n\n- b" : String) ≠ "- a\n- b" :=
  ⟨rfl, by decide⟩

/-- C2 as amended: the assembler inserts a blank-line separator before
each non-omitted block once any output line exists, unless both it and
the immediately preceding block of the input sequence, whether or not
that one was omitted, are list-family kinds; the result is joined with
newlines and trimmed. The concrete list-grouping example holds: the two
bulleted items stay adjacent, with blank lines before the paragraph and
the numbered item; an omitted block between two list items yields a
blank line. -/
theorem c2_assembly_amended :
    (∀ blocks : List Block,
      blocksToMarkdown blocks = trimJs (joinLines (specLines false none blocks))) ∧
    blocksToMarkdown
      [.bulleted_list_item (plainRich "a"), .bulleted_list_item (plainRich "b"),
       .paragraph (plainRich "p"), .numbered_list_item (plainRich "n")] =
      "- a\n- b\n\np\n\n1. n" ∧
    blocksToMarkdown
      [.bulleted_list_item (plainRich "a"), .child_page,
       .bulleted_list_item (plainRich "b")] = "- a\n\n- b" := by
  refine ⟨fun blocks => ?_, rfl, rfl⟩
  unfold blocksToMarkdown
  rw [blocksLines_eq_specLines]
  simp

/-- The code point of a character built from a valid code point. -/
theorem toNat_charOfNat (n : Nat) (h : n.isValidChar) : (Char.ofNat n).toNat = n := by
  simp [Char.ofNat, h, Char.toNat, Char.ofNatAux, UInt32.toNat]

/-- Lowercasing never produces an ASCII uppercase letter. -/
theorem isUpperAscii_jsToLower (c : Char) : isUpperAscii (jsToLower c) = false := by
  unfold jsToLower Char.toLower
  show isUpperAscii (if c.toNat ≥ 65 ∧ c.toNat ≤ 90 then Char.ofNat (c.toNat + 32) else c) = false
  by_cases h : c.toNat ≥ 65 ∧ c.toNat ≤ 90
  · have hv : (c.toNat + 32).isValidChar := by
      left
      omega
    rw [if_pos h]
    simp only [isUpperAscii, toNat_charOfNat _ hv, Bool.and_eq_false_iff,
      decide_eq_false_iff_not]
    omega
  · rw [if_neg h]
    simp only [isUpperAscii, Bool.and_eq_false_iff, decide_eq_false_iff_not]
    omega

/-- Characters of a collapsed run list come from the input or are the
replacement character. -/
theorem mem_collapseRuns {p : Char → Bool} {r : Char} :
    ∀ (b : Bool) (l : List Char) (c : Char),
      c ∈ collapseRuns p r b l → c = r ∨ c ∈ l := by
  intro b l
  induction l generalizing b with
  | nil => intro c hc; simp [collapseRuns] at hc
  | cons a t ih =>
    intro c hc
    unfold collapseRuns at hc
    by_cases hp : p a
    · simp only [hp, if_true] at hc
      cases b with
      | true =>
        rcases ih true c hc with h | h
        · exact Or.inl h
        · exact Or.inr (List.mem_cons_of_mem a h)
      | false =>
        rcases List.mem_cons.mp hc with h | h
        · exact Or.inl h
        · rcases ih true c h with h2 | h2
          · exact Or.inl h2
          · exact Or.inr (List.mem_cons_of_mem a h2)
    · simp only [hp, if_false] at hc
      rcases List.mem_cons.mp hc with h | h
      · exact Or.inr (h ▸ List.mem_cons_self a t)
      · rcases ih false c h with h2 | h2
        · exact Or.inl h2
        · exact Or.inr (List.mem_cons_of_mem a h2)

/-- Characters survive the leading-hyphen drop only from the input. -/
theorem mem_dropLeadHyphen {l : List Char} {c : Char}
    (h : c ∈ dropLeadHyphen l) : c ∈ l := by
  unfold dropLeadHyphen at h
  split at h
  · exact List.mem_cons_of_mem _ h
  · exact h

/-- Characters survive the trailing-hyphen drop only from the input. -/
theorem mem_dropTrailHyphen {l : List Char} {c : Char}
    (h : c ∈ dropTrailHyphen l) : c ∈ l := by
  unfold dropTrailHyphen at h
  split at h
  · next t heq =>
    have hrev : c ∈ l.reverse := by
      rw [heq]
      exact List.mem_cons_of_mem _ (by simpa using h)
    simpa using hrev
  · exact h

/-- Characters survive edge-hyphen stripping only from the input. -/
theorem mem_stripEdgeHyphens {l : List Char} {c : Char}
    (h : c ∈ stripEdgeHyphens l) : c ∈ l :=
  mem_dropLeadHyphen (mem_dropTrailHyphen h)

/-- Every character of a slugified title is either a hyphen or a
lowercased input character, hence never an ASCII uppercase letter. -/
theorem titleToSlug_no_upper (t : String) (c : Char)
    (hc : c ∈ (titleToSlug t).data) : isUpperAscii c = false := by
  unfold titleToSlug at hc
  have h1 := mem_stripEdgeHyphens hc
  rcases mem_collapseRuns _ _ _ h1 with rfl | h2
  · rfl
  rcases mem_collapseRuns _ _ _ h2 with rfl | h3
  · rfl
  have h3a := List.mem_reverse.mp h3
  have h3b := (List.dropWhile_sublist _).subset h3a
  have h3c := List.mem_reverse.mp h3b
  have h6 := (List.dropWhile_sublist _).subset h3c
  have h7 := (List.mem_filter.mp h6).1
  rcases List.mem_map.mp h7 with ⟨a, _, rfl⟩
  exact isUpperAscii_jsToLower a

/-- With no slug property, extractMeta slugifies the resolved title. -/
theorem extractMeta_slug_fallback (today : String) (props : Properties)
    (h1 : props.Slug = none) (h2 : props.slug = none) :
    (extractMeta today props).slug = titleToSlug (extractMeta today props).title := by
  simp [extractMeta, h1, h2]

/-- C6 counterexample: a page whose Slug property is the verbatim value
MyPost produces the filename 2024-01-01-MyPost.md, which contains the
uppercase letter M, so the filename is not entirely lowercase. -/
theorem c6_filename_counterexample :
    postFilename (extractMeta "2024-01-09" upperSlugProps).date
        (extractMeta "2024-01-09" upperSlugProps).slug = "2024-01-01-MyPost.md" ∧
    'M' ∈ ("2024-01-01-MyPost.md" : String).data ∧ isUpperAscii 'M' = true :=
  ⟨rfl, by decide, by decide⟩

/-- C6 as amended: the output filename is the date, a hyphen, the slug
and the .md extension; when the slug falls back to title slugification it
contains no ASCII uppercase letter, so the whole filename is lowercase
whenever the resolved date is; a verbatim Slug property value is used
unmodified and can therefore put uppercase letters into the filename. -/
theorem c6_filename_amended (today : String) (props : Properties)
    (h1 : props.Slug = none) (h2 : props.slug = none)
    (hdate : ∀ c ∈ (extractMeta today props).date.data, isUpperAscii c = false) :
    postFilename (extractMeta today props).date (extractMeta today props).slug =
      (extractMeta today props).date ++ "-" ++ (extractMeta today props).slug ++ ".md" ∧
    ∀ c ∈ (postFilename (extractMeta today props).date
        (extractMeta today props).slug).data, isUpperAscii c = false := by
  refine ⟨rfl, ?_⟩
  intro c hc
  unfold postFilename at hc
  simp only [String.data_append, List.mem_append] at hc
  rcases hc with ((hd | hdash) | hslugmem) | hmd
  · exact hdate c hd
  · have : c = '-' := by simpa using hdash
    subst this
    rfl
  · rw [extractMeta_slug_fallback today props h1 h2] at hslugmem
    exact titleToSlug_no_upper _ c hslugmem
  · have : c = '.' ∨ c = 'm' ∨ c = 'd' := by simpa using hmd
    rcases this with rfl | rfl | rfl <;> rfl

/-- Witness for c6_filename_amended at the Hello, World! fixture. -/
theorem c6_filename_amended_witness :
    postFilename (extractMeta "2024-01-09" helloProps).date
        (extractMeta "2024-01-09" helloProps).slug =
      (extractMeta "2024-01-09" helloProps).date ++ "-" ++
        (extractMeta "2024-01-09" helloProps).slug ++ ".md" :=
  (c6_filename_amended "2024-01-09" helloProps rfl rfl (by decide)).1

/-- C7 counterexample: an image block whose storage-type tag is file
resolves the hosted-file url even though an external url is present, so
the external-reference field is not consulted first. -/
theorem c7_media_url_counterexample :
    blockToMarkdown (.image { type := "file", external := some { url := some "E" }, file := some { url := some "F" } }) = some "![](F)" ∧
    (some "![](F)" : Option String) ≠ some "![](E)" :=
  ⟨rfl, by decide⟩

/-- C7 as amended: an image or video block resolves its url by the
storage-type tag alone — the external-reference field exactly when the
tag is external, otherwise the hosted-file field, with no cross-field
fallback — while the cover-image metadata field is resolved preferring
the external url and falling back to the hosted-file url. -/
theorem c7_media_url_amended :
    (∀ (u : String) (f : Option UrlRef) (cap : Option (List RichItem)),
      blockToMarkdown (.image { type := "external", external := some { url := some u }, file := f, caption := cap }) =
        some ("![" ++ richTextToMarkdown (cap.getD []) ++ "](" ++ u ++ ")")) ∧
    (∀ (t u : String) (e : Option UrlRef) (cap : Option (List RichItem)),
      t ≠ "external" →
      blockToMarkdown (.image { type := t, external := e, file := some { url := some u }, caption := cap }) =
        some ("![" ++ richTextToMarkdown (cap.getD []) ++ "](" ++ u ++ ")")) ∧
    (∀ (u : String) (f : Option UrlRef) (cap : Option (List RichItem)),
      blockToMarkdown (.video { type := "external", external := some { url := some u }, file := f, caption := cap }) =
        some (if richTextToMarkdown (cap.getD []) ≠ "" then
            "[▶ " ++ richTextToMarkdown (cap.getD []) ++ "](" ++ u ++ ")"
          else "[▶ Watch video](" ++ u ++ ")")) ∧
    (∀ (t u : String) (e : Option UrlRef) (cap : Option (List RichItem)),
      t ≠ "external" →
      blockToMarkdown (.video { type := t, external := e, file := some { url := some u }, caption := cap }) =
        some (if richTextToMarkdown (cap.getD []) ≠ "" then
            "[▶ " ++ richTextToMarkdown (cap.getD []) ++ "](" ++ u ++ ")"
          else "[▶ Watch video](" ++ u ++ ")")) ∧
    (∀ (today u : String) (props : Properties) (f0 : FileRef) (rest : List FileRef),
      props.coverImage.bind (fun pv => pv.files) = some (f0 :: rest) →
      f0.external.bind (fun r => r.url) = some u →
      (extractMeta today props).coverImage = u) ∧
    (∀ (today : String) (props : Properties) (f0 : FileRef) (rest : List FileRef),
      props.coverImage.bind (fun pv => pv.files) = some (f0 :: rest) →
      f0.external.bind (fun r => r.url) = none →
      (extractMeta today props).coverImage =
        (f0.file.bind (fun r => r.url)).getD "") := by
  refine ⟨fun u f cap => ?_, fun t u e cap ht => ?_, fun u f cap => ?_,
    fun t u e cap ht => ?_, ?_, ?_⟩
  · simp [blockToMarkdown, mediaUrl]
  · simp [blockToMarkdown, mediaUrl, ht]
  · simp [blockToMarkdown, mediaUrl]
  · simp [blockToMarkdown, mediaUrl, ht]
  · intro today u props f0 rest hf hext
    simp [extractMeta, hf, hext]
  · intro today props f0 rest hf hext
    simp [extractMeta, hf, hext]

/-- Witness for c7_media_url_amended: the hosted-file branch of an image
and of a video block at a concrete non-external tag. -/
theorem c7_media_url_amended_witness :
    blockToMarkdown (.image { type := "file", external := none, file := some { url := some "F" }, caption := none }) = some "![](F)" ∧
    blockToMarkdown (.video { type := "file", external := none, file := some { url := some "F" }, caption := none }) = some "[▶ Watch video](F)" := by
  constructor
  · simpa using c7_media_url_amended.2.1 "file" "F" none none (by decide)
  · simpa using c7_media_url_amended.2.2.2.1 "file" "F" none none (by decide)

/-- Lookup with default in a newline-free character list stays away from
the newline character. -/
theorem getD_ne_nl (l : List Char) (n : Nat) (d : Char)
    (hl : ∀ c ∈ l, c ≠ '\n') (hd : d ≠ '\n') : l.getD n d ≠ '\n' := by
  induction l generalizing n with
  | nil => simpa [List.getD] using hd
  | cons a t ih =>
    cases n with
    | zero => simpa [List.getD] using hl a (by simp)
    | succ m =>
      simp only [List.getD, List.get?_cons_succ] at *
      exact ih m (fun c hc => hl c (List.mem_cons_of_mem _ hc))

/-- No escaped character expansion contains a newline. -/
theorem jsonEscapeChar_no_nl (c : Char) : ∀ x ∈ jsonEscapeChar c, x ≠ '\n' := by
  unfold jsonEscapeChar
  split_ifs with h1 h2 h3 h4 h5 h6 h7 h8 <;> intro x hx
  · rcases List.mem_cons.mp hx with rfl | hx2
    · decide
    · simp_all
  · rcases List.mem_cons.mp hx with rfl | hx2
    · decide
    · simp_all
  · rcases List.mem_cons.mp hx with rfl | hx2
    · decide
    · simp_all
  · rcases List.mem_cons.mp hx with rfl | hx2
    · decide
    · simp_all
  · rcases List.mem_cons.mp hx with rfl | hx2
    · decide
    · simp_all
  · rcases List.mem_cons.mp hx with rfl | hx2
    · decide
    · simp_all
  · rcases List.mem_cons.mp hx with rfl | hx2
    · decide
    · simp_all
  · simp only [List.mem_cons] at hx
    rcases hx with rfl | rfl | rfl | rfl | hx2
    · decide
    · decide
    · decide
    · decide
    rcases hx2 with rfl | rfl | hx3
    · exact getD_ne_nl _ _ _ (by decide) (by decide)
    · exact getD_ne_nl _ _ _ (by decide) (by decide)
    · simp_all
  · have : x = c := by simpa using hx
    subst this
    exact h3

/-- The escaped form of a newline-free source never contains a newline
(escaping replaces the newline by a two-character escape). -/
theorem jsonEscapeList_no_nl (l : List Char) : ∀ x ∈ jsonEscapeList l, x ≠ '\n' := by
  induction l with
  | nil => simp [jsonEscapeList]
  | cons a t ih =>
    intro x hx
    unfold jsonEscapeList at hx
    rcases List.mem_append.mp hx with h | h
    · exact jsonEscapeChar_no_nl a x h
    · exact ih x h

/-- A serialized JSON string value contains no newline character. -/
theorem jsonStringify_no_nl (s : String) : ∀ x ∈ (jsonStringify s).data, x ≠ '\n' := by
  intro x hx
  have hx2 : x ∈ '"' :: (jsonEscapeList s.data ++ ['"']) := hx
  rcases List.mem_cons.mp hx2 with rfl | hx3
  · decide
  rcases List.mem_append.mp hx3 with h | h
  · exact jsonEscapeList_no_nl _ x h
  · have : x = '"' := by simpa using h
    subst this
    decide

/-- Escaping leaves a character of the identity-token class unchanged. -/
theorem jsonEscapeChar_plain {c : Char} (hc : isHexDash c = true) :
    jsonEscapeChar c = [c] := by
  have hn : (97 ≤ c.toNat ∧ c.toNat ≤ 102) ∨ (48 ≤ c.toNat ∧ c.toNat ≤ 57) ∨
      c.toNat = 45 := by
    simp only [isHexDash, Bool.or_eq_true, Bool.and_eq_true, decide_eq_true_eq] at hc
    rcases hc with (h | h) | h
    · exact Or.inl h
    · exact Or.inr (Or.inl h)
    · subst h
      exact Or.inr (Or.inr rfl)
  unfold jsonEscapeChar
  rw [if_neg (fun h => by subst h; revert hn; decide),
    if_neg (fun h => by subst h; revert hn; decide),
    if_neg (fun h => by subst h; revert hn; decide),
    if_neg (fun h => by subst h; revert hn; decide),
    if_neg (fun h => by subst h; revert hn; decide),
    if_neg (fun h => by subst h; revert hn; decide),
    if_neg (fun h => by subst h; revert hn; decide),
    if_neg (by rcases hn with ⟨a, b⟩ | ⟨a, b⟩ | a <;> omega)]

/-- Escaping leaves an identity token of the hex-dash class unchanged. -/
theorem jsonEscapeList_plain (l : List Char) (h : ∀ c ∈ l, isHexDash c = true) :
    jsonEscapeList l = l := by
  induction l with
  | nil => rfl
  | cons a t ih =>
    unfold jsonEscapeList
    rw [jsonEscapeChar_plain (h a (by simp)),
      ih (fun c hc => h c (List.mem_cons_of_mem _ hc))]
    rfl

/-- Joining newline-free strings with a comma-space separator yields a
newline-free string. -/
theorem joinCommaSp_no_nl (ls : List String)
    (h : ∀ l ∈ ls, ∀ c ∈ l.data, c ≠ '\n') :
    ∀ c ∈ (joinCommaSp ls).data, c ≠ '\n' := by
  induction ls with
  | nil => simp [joinCommaSp]
  | cons a t ih =>
    intro c hc
    cases t with
    | nil => exact h a (by simp) c hc
    | cons b t2 =>
      unfold joinCommaSp at hc
      simp only [String.data_append, List.mem_append] at hc
      rcases hc with (hc1 | hc1) | hc1
      · exact h a (by simp) c hc1
      · have : c = ',' ∨ c = ' ' := by simpa using hc1
        rcases this with rfl | rfl <;> decide
      · exact ih (fun l hl => h l (List.mem_cons_of_mem _ hl)) c hc1

/-- Scanning from a non-line-start position inside a newline-free segment
reaches the position after the segment's terminating newline. -/
theorem scanId_false_append (l : List Char) (rest : List Char)
    (h : ∀ c ∈ l, c ≠ '\n') :
    scanId false (l ++ '\n' :: rest) = scanId true rest := by
  induction l with
  | nil => simp [scanId]
  | cons a t ih =>
    have ha : (a == '\n') = false := by
      simp [h a (by simp)]
    simp only [List.cons_append, scanId, Bool.false_and, if_neg, ha]
    exact ih (fun c hc => h c (List.mem_cons_of_mem _ hc))

/-- Scanning a line that is newline-free and does not begin the key
pattern skips to the next line. -/
theorem scanId_skip_line (l : List Char) (rest : List Char)
    (h1 : ∀ c ∈ l, c ≠ '\n')
    (h2 : notionIdKey.isPrefixOf (l ++ '\n' :: rest) = false) :
    scanId true (l ++ '\n' :: rest) = scanId true rest := by
  cases l with
  | nil =>
    simp only [List.nil_append] at h2 ⊢
    simp [scanId, h2]
  | cons a t =>
    have h2x : notionIdKey.isPrefixOf (a :: (t ++ '\n' :: rest)) = false := by
      simpa using h2
    have ha : (a == '\n') = false := by
      simp [h1 a (by simp)]
    have step : scanId true ((a :: t) ++ '\n' :: rest) =
        scanId (a == '\n') (t ++ '\n' :: rest) := by
      simp [scanId, h2x]
    rw [step, ha]
    exact scanId_false_append t rest (fun c hc => h1 c (List.mem_cons_of_mem _ hc))

/-- The conditional push of one optional header line preserves a
property that holds for all lines so far and for the pushed line. -/
theorem forall_mem_appendIf {P : String → Prop} (c : Prop) [Decidable c]
    (l : List String) (x : String)
    (hl : ∀ y ∈ l, P y) (hx : P x) :
    ∀ y ∈ (if c then l ++ [x] else l), P y := by
  split_ifs
  · intro y hy
    rcases List.mem_append.mp hy with h | h
    · exact hl y h
    · have : y = x := by simpa using h
      subst this
      exact hx
  · exact hl

/-- A line made of a safe literal key followed by a serialized JSON
string is safe to skip. -/
theorem lineSafe_json (pfx : String) (s : String)
    (hp : ∀ c ∈ pfx.data, c ≠ '\n')
    (hh : pfx.data.head? ≠ some 'n') (hne : pfx.data ≠ []) :
    lineSafe (pfx ++ jsonStringify s) := by
  constructor
  · intro c hc
    rcases List.mem_append.mp (by simpa using hc) with h | h
    · exact hp c h
    · exact jsonStringify_no_nl s c h
  · cases hpd : pfx.data with
    | nil => exact absurd hpd hne
    | cons a t =>
      have : (pfx ++ jsonStringify s).data.head? = some a := by
        simp [String.data_append, hpd]
      rw [this]
      intro hcontra
      apply hh
      rw [hpd]
      simpa using hcontra

/-- A line made of a safe literal key followed by a newline-free raw
value is safe to skip. -/
theorem lineSafe_raw (pfx : String) (s : String)
    (hp : ∀ c ∈ pfx.data, c ≠ '\n')
    (hh : pfx.data.head? ≠ some 'n') (hne : pfx.data ≠ [])
    (hs : ∀ c ∈ s.data, c ≠ '\n') :
    lineSafe (pfx ++ s) := by
  constructor
  · intro c hc
    rcases List.mem_append.mp (by simpa using hc) with h | h
    · exact hp c h
    · exact hs c h
  · cases hpd : pfx.data with
    | nil => exact absurd hpd hne
    | cons a t =>
      have : (pfx ++ s).data.head? = some a := by
        simp [String.data_append, hpd]
      rw [this]
      intro hcontra
      apply hh
      rw [hpd]
      simpa using hcontra

/-- Every line pushed before the identity-token line is safe to skip,
provided the raw-interpolated date and slug contain no newline. -/
theorem fmPreLines_safe (meta : PostMeta)
    (hd : ∀ c ∈ meta.date.data, c ≠ '\n')
    (hs : ∀ c ∈ meta.slug.data, c ≠ '\n') :
    ∀ l ∈ fmPreLines meta, lineSafe l := by
  have hbase : ∀ y ∈ ["---", "layout: post", "title: " ++ jsonStringify meta.title,
      "date: " ++ meta.date, "slug: " ++ meta.slug], lineSafe y := by
    intro y hy
    simp only [List.mem_cons, List.not_mem_nil, or_false] at hy
    rcases hy with rfl | rfl | rfl | rfl | rfl
    · exact ⟨by decide, by decide⟩
    · exact ⟨by decide, by decide⟩
    · exact lineSafe_json _ _ (by decide) (by decide) (by decide)
    · exact lineSafe_raw _ _ (by decide) (by decide) (by decide) hd
    · exact lineSafe_raw _ _ (by decide) (by decide) (by decide) hs
  have htags : lineSafe ("tags: [" ++ joinCommaSp (meta.tags.map jsonStringify) ++ "]") := by
    constructor
    · intro c hc
      simp only [String.data_append, List.mem_append] at hc
      rcases hc with (h | h) | h
      · intro hEq
        subst hEq
        revert h
        decide
      · refine joinCommaSp_no_nl _ ?_ c h
        intro l hl
        rcases List.mem_map.mp hl with ⟨t, _, rfl⟩
        exact jsonStringify_no_nl t
      · have : c = ']' := by simpa using h
        subst this
        decide
    · have : ("tags: [" ++ joinCommaSp (meta.tags.map jsonStringify) ++ "]").data.head? =
          some 't' := by
        simp [String.data_append]
      rw [this]
      decide
  unfold fmPreLines
  exact forall_mem_appendIf _ _ _
    (forall_mem_appendIf _ _ _
      (forall_mem_appendIf _ _ _
        (forall_mem_appendIf _ _ _
          (forall_mem_appendIf _ _ _ hbase htags)
          (lineSafe_json _ _ (by decide) (by decide) (by decide)))
        (lineSafe_json _ _ (by decide) (by decide) (by decide)))
      (lineSafe_json _ _ (by decide) (by decide) (by decide)))
    ⟨by decide, by decide⟩

/-- The identity key never matches at a position whose first character
is not the letter n. -/
theorem keyMissesLine (l : List Char) (X : List Char)
    (h : l.head? ≠ some 'n') :
    notionIdKey.isPrefixOf (l ++ '\n' :: X) = false := by
  cases l with
  | nil => simp [notionIdKey, List.isPrefixOf]
  | cons c t =>
    have hc : c ≠ 'n' := by
      intro hEq
      exact h (by simp [hEq])
    have hb : ('n' == c) = false := by
      simp [Ne.symm hc]
    simp [notionIdKey, List.isPrefixOf, hb]

/-- The scan passes over any block of safe lines. -/
theorem scanId_skip_joined (pre : List String) (ms : List String) (tail0 : List Char)
    (hms : ms ≠ [])
    (hpre : ∀ l ∈ pre, lineSafe l) :
    scanId true (joinNl (pre ++ ms) ++ tail0) = scanId true (joinNl ms ++ tail0) := by
  induction pre with
  | nil => rfl
  | cons l pre2 ih =>
    have hjoin : joinNl ((l :: pre2) ++ ms) = l.data ++ '\n' :: joinNl (pre2 ++ ms) := by
      cases hpm : pre2 ++ ms with
      | nil =>
        exact absurd (List.append_eq_nil.mp hpm).2 hms
      | cons x xs =>
        simp [joinNl, hpm]
    rw [hjoin]
    have hassoc : (l.data ++ '\n' :: joinNl (pre2 ++ ms)) ++ tail0 =
        l.data ++ '\n' :: (joinNl (pre2 ++ ms) ++ tail0) := by
      simp
    rw [hassoc]
    have hsafe := hpre l (by simp)
    rw [scanId_skip_line _ _ hsafe.1 (keyMissesLine _ _ hsafe.2)]
    exact ih (fun y hy => hpre y (List.mem_cons_of_mem _ hy))

/-- At the identity-token line, the scan matches and captures exactly
the 36-character token. -/
theorem scanId_notion_line (token : String) (X : List Char)
    (h36 : token.data.length = 36)
    (hcls : ∀ c ∈ token.data, isHexDash c = true) :
    scanId true (("notion_id: " ++ jsonStringify token).data ++ X) = some token.data := by
  have hdata : ("notion_id: " ++ jsonStringify token).data ++ X =
      notionIdKey ++ (' ' :: '"' :: (token.data ++ ('"' :: X))) := by
    rw [String.data_append]
    have hj : (jsonStringify token).data = '"' :: (jsonEscapeList token.data ++ ['"']) := rfl
    rw [hj, jsonEscapeList_plain token.data hcls]
    simp [notionIdKey]
  rw [hdata]
  have hkey : notionIdKey.isPrefixOf
      (notionIdKey ++ (' ' :: '"' :: (token.data ++ ('"' :: X)))) = true := by
    simp [notionIdKey, List.isPrefixOf]
  have hdrop : (notionIdKey ++ (' ' :: '"' :: (token.data ++ ('"' :: X)))).drop 10 =
      ' ' :: '"' :: (token.data ++ ('"' :: X)) := by
    have h10 : notionIdKey.length = 10 := by decide
    rw [← h10]
    exact List.drop_left _ _
  have hmatch : matchAfterKey (' ' :: '"' :: (token.data ++ ('"' :: X))) =
      some token.data := by
    unfold matchAfterKey
    have hdw : (' ' :: '"' :: (token.data ++ ('"' :: X))).dropWhile isJsWs =
        '"' :: (token.data ++ ('"' :: X)) := rfl
    rw [hdw]
    have htake : (token.data ++ ('"' :: X)).take 36 = token.data := by
      rw [← h36]
      exact List.take_left _ _
    simp only [htake]
    rw [if_pos]
    simp only [h36, List.all_eq_true, decide_eq_true_eq, Bool.and_eq_true]
    exact ⟨by simp, fun c hc => hcls c hc⟩
  cases hlist : notionIdKey ++ (' ' :: '"' :: (token.data ++ ('"' :: X))) with
  | nil => simp [notionIdKey] at hlist
  | cons a rest =>
    rw [scanId]
    rw [← hlist, hkey]
    simp only [Bool.true_and, if_true, hdrop, hmatch]

/-- C3: the header serializer always emits the quoted identity token
directly after the fixed key at the start of a line, and applying the
index-building pattern match to the full serialized file content recovers
exactly that token (extract after serialize is the identity), for every
metadata record whose raw-interpolated date and slug fields are free of
newlines and every 36-character hex-dash token. -/
theorem c3_token_roundtrip (meta : PostMeta) (token body : String)
    (h36 : token.length = 36)
    (hcls : ∀ c ∈ token.data, isHexDash c = true)
    (hd : ∀ c ∈ meta.date.data, c ≠ '\n')
    (hs : ∀ c ∈ meta.slug.data, c ≠ '\n') :
    (buildFrontMatterLines meta token =
      fmPreLines meta ++ ["notion_id: " ++ jsonStringify token, "---"] ∧
      jsonStringify token = "\"" ++ token ++ "\"") ∧
    extractNotionId (buildFrontMatter meta token ++ "\n\n" ++ body ++ "\n") =
      some token := by
  have hq : jsonStringify token = "\"" ++ token ++ "\"" := by
    apply String.ext
    show '"' :: (jsonEscapeList token.data ++ ['"']) = _
    rw [jsonEscapeList_plain token.data hcls]
    simp [String.data_append]
  refine ⟨⟨rfl, hq⟩, ?_⟩
  unfold extractNotionId
  have hce : (buildFrontMatter meta token ++ "\n\n" ++ body ++ "\n").data =
      joinNl (fmPreLines meta ++ ["notion_id: " ++ jsonStringify token, "---"]) ++
        ('\n' :: '\n' :: (body.data ++ ['\n'])) := by
    simp only [String.data_append]
    have hfm : (buildFrontMatter meta token).data =
        joinNl (fmPreLines meta ++ ["notion_id: " ++ jsonStringify token, "---"]) := rfl
    rw [hfm]
    simp
  rw [hce]
  rw [scanId_skip_joined (fmPreLines meta) _ _ (by simp) (fmPreLines_safe meta hd hs)]
  have hjoin2 : joinNl ["notion_id: " ++ jsonStringify token, "---"] =
      ("notion_id: " ++ jsonStringify token).data ++ '\n' :: "---".data := rfl
  rw [hjoin2]
  have hassoc2 : (("notion_id: " ++ jsonStringify token).data ++ '\n' :: "---".data) ++
      ('\n' :: '\n' :: (body.data ++ ['\n'])) =
      ("notion_id: " ++ jsonStringify token).data ++
        ('\n' :: ("---".data ++ ('\n' :: '\n' :: (body.data ++ ['\n'])))) := by
    simp
  rw [hassoc2, scanId_notion_line token _ h36 hcls]
  rfl

/-- Witness for c3_token_roundtrip at a concrete record and token. -/
theorem c3_token_roundtrip_witness :
    extractNotionId (buildFrontMatter witnessMeta
        "30686d15-3727-81e5-bcfc-ea5c70d32c54" ++ "\n\n" ++ "hello\nworld" ++ "\n") =
      some "30686d15-3727-81e5-bcfc-ea5c70d32c54" :=
  (c3_token_roundtrip witnessMeta "30686d15-3727-81e5-bcfc-ea5c70d32c54" "hello\nworld"
    (by decide) (by decide) (by decide) (by decide)).2

/-- Each processed page changes the counters by bumping exactly one of
the four outcome counters by one. -/
theorem processPage_stats_step (env : Env) (files : List String)
    (idx : List (String × String)) (st : SyncState) (p : NPage) :
    (processPage env files idx st p).stats =
        { st.stats with created := st.stats.created + 1 } ∨
    (processPage env files idx st p).stats =
        { st.stats with updated := st.stats.updated + 1 } ∨
    (processPage env files idx st p).stats =
        { st.stats with unchanged := st.stats.unchanged + 1 } ∨
    (processPage env files idx st p).stats =
        { st.stats with errors := st.stats.errors + 1 } := by
  cases hE : extractMetaE env.today p with
  | error e =>
    simp [processPage, hE]
  | ok m =>
    cases hB : env.blocksOf p.id with
    | error e =>
      simp only [processPage, hE]
      rw [hB]
      simp
    | ok blocks =>
      simp only [processPage, hE]
      rw [hB]
      repeat' split
      all_goals simp

/-- Each processed page adds exactly one to the counter total. -/
theorem processPage_total (env : Env) (files : List String)
    (idx : List (String × String)) (st : SyncState) (p : NPage) :
    (processPage env files idx st p).stats.total = st.stats.total + 1 := by
  rcases processPage_stats_step env files idx st p with h | h | h | h <;>
    rw [h] <;> simp [Stats.total] <;> omega

/-- Folding the per-page step over a page list adds the page count to
the counter total. -/
theorem foldl_processPage_total (env : Env) (files : List String)
    (idx : List (String × String)) :
    ∀ (pages : List NPage) (st : SyncState),
      (pages.foldl (processPage env files idx) st).stats.total =
        st.stats.total + pages.length := by
  intro pages
  induction pages with
  | nil => intro st; simp
  | cons p t ih =>
    intro st
    simp only [List.foldl_cons, List.length_cons]
    rw [ih, processPage_total]
    omega

/-- C9: each published page increments exactly one of the four outcome
counters, so after a pass over a successfully listed published set the
four counters sum to the number of published pages. -/
theorem c9_counters_partition (env : Env) (fs0 : FileSys) (pages : List NPage)
    (h : env.listing = .ok pages) :
    (∀ (files : List String) (idx : List (String × String))
        (st : SyncState) (p : NPage),
      (processPage env files idx st p).stats =
          { st.stats with created := st.stats.created + 1 } ∨
      (processPage env files idx st p).stats =
          { st.stats with updated := st.stats.updated + 1 } ∨
      (processPage env files idx st p).stats =
          { st.stats with unchanged := st.stats.unchanged + 1 } ∨
      (processPage env files idx st p).stats =
          { st.stats with errors := st.stats.errors + 1 }) ∧
    (mainSync env fs0).stats.created + (mainSync env fs0).stats.updated +
      (mainSync env fs0).stats.unchanged + (mainSync env fs0).stats.errors =
      pages.length := by
  refine ⟨fun files idx st p => processPage_stats_step env files idx st p, ?_⟩
  simp only [mainSync, h]
  have ht := foldl_processPage_total env
    ((fs0.map (fun p => p.1)).filter (fun f => jsEndsWith f ".md"))
    (buildIndex ((fs0.map (fun p => p.1)).filter (fun f => jsEndsWith f ".md")) fs0)
    pages { fs := fs0, processedIds := [], stats := Stats.zero }
  simpa [Stats.total, Stats.zero] using ht

/-- Witness for c9_counters_partition on the empty listing. -/
theorem c9_counters_partition_witness :
    (mainSync emptyEnv []).stats.created + (mainSync emptyEnv []).stats.updated +
      (mainSync emptyEnv []).stats.unchanged + (mainSync emptyEnv []).stats.errors = 0 :=
  (c9_counters_partition emptyEnv [] [] rfl).2

/-- C1: under a present configuration and a successful listing, the
process exits non-zero exactly when the per-item error counter is
positive; a metadata-extraction failure or a block-fetch failure for one
page is caught, increments only the error counter, leaves the file
system untouched, and the fold continues with the next page; in the
concrete three-page scenario whose middle page's block fetch throws, the
pass completes with the first and third pages written, one error, and a
non-zero exit code. -/
theorem c1_error_isolation (env : Env) (fs0 : FileSys) (pages : List NPage)
    (h : env.listing = .ok pages) :
    ((mainSync env fs0).exitCode ≠ 0 ↔ 0 < (mainSync env fs0).stats.errors) ∧
    (∀ (files : List String) (idx : List (String × String))
        (st : SyncState) (p : NPage) (e : String),
      extractMetaE env.today p = .error e →
      processPage env files idx st p =
        { st with
          processedIds := st.processedIds ++ [p.id]
          stats := { st.stats with errors := st.stats.errors + 1 } }) ∧
    (∀ (files : List String) (idx : List (String × String))
        (st : SyncState) (p : NPage) (e : String) (m : PostMeta),
      extractMetaE env.today p = .ok m → env.blocksOf p.id = .error e →
      processPage env files idx st p =
        { st with
          processedIds := st.processedIds ++ [p.id]
          stats := { st.stats with errors := st.stats.errors + 1 } }) ∧
    (∀ (files : List String) (idx : List (String × String))
        (st : SyncState) (p : NPage) (m : PostMeta) (blocks : List Block),
      extractMetaE env.today p = .ok m → env.blocksOf p.id = .ok blocks →
      env.writeOk (postFilename m.date m.slug) = false →
      (processPage env files idx st p).stats =
          { st.stats with unchanged := st.stats.unchanged + 1 } ∨
      (processPage env files idx st p).stats =
          { st.stats with errors := st.stats.errors + 1 }) ∧
    ((mainSync envSplit []).stats.errors = 1 ∧ (mainSync envSplit []).exitCode = 1 ∧
      (fsLookup (mainSync envSplit []).fs "2024-01-01-alpha.md").isSome = true ∧
      (fsLookup (mainSync envSplit []).fs "2024-01-03-gamma.md").isSome = true) := by
  refine ⟨?_, ?_, ?_, ?_, by decide, by decide, by decide, by decide⟩
  · simp only [mainSync, h]
    split_ifs with hpos
    · simp [hpos]
    · simpa using hpos
  · intro files idx st p e hE
    simp [processPage, hE]
  · intro files idx st p e m hE hB
    simp only [processPage, hE]
    rw [hB]
  · intro files idx st p m blocks hE hB hW
    simp only [processPage, hE]
    rw [hB]
    simp only [hW]
    repeat' split
    all_goals simp_all

/-- Witness for c1_error_isolation at the three-page scenario. -/
theorem c1_error_isolation_witness :
    (mainSync envSplit []).exitCode ≠ 0 ↔ 0 < (mainSync envSplit []).stats.errors :=
  (c1_error_isolation envSplit [] [pageA, pageB, pageC] rfl).1

/-- Filtering out another name does not change a lookup. -/
theorem lookup_filter_ne (fs : FileSys) (m n : String) (h : n ≠ m) :
    List.lookup n (fs.filter (fun p => p.1 != m)) = List.lookup n fs := by
  induction fs with
  | nil => rfl
  | cons a t ih =>
    by_cases ha : a.1 = m
    · have hna : (n == a.1) = false := by
        simp [ha, h]
      have hnm : (n == m) = false := by
        simp [h]
      simp [List.filter_cons, ha, List.lookup, hna, hnm, ih]
    · cases hna : (n == a.1) <;>
        simp [List.filter_cons, ha, List.lookup, hna, ih]

/-- Writing another file does not change a lookup. -/
theorem fsLookup_fsWrite_ne (fs : FileSys) (m c n : String) (h : n ≠ m) :
    fsLookup (fsWrite fs m c) n = fsLookup fs n := by
  unfold fsLookup fsWrite
  have hne : (n == m) = false := by simp [h]
  simp [List.lookup, hne, lookup_filter_ne fs m n h]

/-- Unlinking another file does not change a lookup. -/
theorem fsLookup_fsUnlink_ne (fs : FileSys) (m n : String) (h : n ≠ m) :
    fsLookup (fsUnlink fs m) n = fsLookup fs n := by
  unfold fsLookup fsUnlink
  exact lookup_filter_ne fs m n h

/-- A successful association lookup produces a member pair. -/
theorem mem_of_lookup (l : List (String × String)) (k v : String)
    (h : List.lookup k l = some v) : (k, v) ∈ l := by
  induction l with
  | nil => simp [List.lookup] at h
  | cons a t ih =>
    rw [List.lookup] at h
    by_cases hk : (k == a.1) = true
    · have hkeq : k = a.1 := by simpa using hk
      rw [hk] at h
      simp only [if_true] at h
      have : v = a.2 := by simpa using h.symm
      subst this
      subst hkeq
      exact List.mem_cons_self _ _
    · have hk2 : (k == a.1) = false := by simpa using hk
      rw [hk2] at h
      simp only [Bool.false_eq_true, if_false] at h
      exact List.mem_cons_of_mem _ (ih h)

/-- Every generated post filename carries the .md extension. -/
theorem jsEndsWith_postFilename (d s : String) :
    jsEndsWith (postFilename d s) ".md" = true := by
  unfold jsEndsWith postFilename
  have hdata : (d ++ "-" ++ s ++ ".md").data = (d ++ "-" ++ s).data ++ ['.', 'm', 'd'] := by
    simp [String.data_append]
  rw [hdata]
  have : (".md" : String).data = ['.', 'm', 'd'] := rfl
  rw [this]
  rw [List.isSuffixOf_iff_suffix]
  exact List.suffix_append _ _

/-- A member of a map after a set operation is an old member or the new
binding. -/
theorem mapSet_mem {m : List (String × String)} {k v : String}
    {q : String × String} (hq : q ∈ mapSet m k v) : q ∈ m ∨ q = (k, v) := by
  unfold mapSet at hq
  split_ifs at hq with hany
  · rcases List.mem_map.mp hq with ⟨p, hp, heq⟩
    by_cases hpk : (p.1 == k) = true
    · rw [if_pos hpk] at heq
      exact Or.inr heq.symm
    · rw [if_neg hpk] at heq
      exact Or.inl (heq ▸ hp)
  · rcases List.mem_append.mp hq with h2 | h2
    · exact Or.inl h2
    · exact Or.inr (by simpa using h2)

/-- Every entry of the identity index points at a scanned file whose
content pattern-matched that identity token. -/
theorem buildIndex_mem (files : List String) (fs : FileSys) :
    ∀ q ∈ buildIndex files fs, q.2 ∈ files ∧
      ∃ c, fsLookup fs q.2 = some c ∧ extractNotionId c = some q.1 := by
  have aux : ∀ (fl : List String) (S : List String) (acc : List (String × String)),
      (∀ q ∈ acc, q.2 ∈ S ∧
        ∃ c, fsLookup fs q.2 = some c ∧ extractNotionId c = some q.1) →
      (∀ f ∈ fl, f ∈ S) →
      ∀ q ∈ fl.foldl (fun m f =>
          match fsLookup fs f with
          | none => m
          | some content =>
            match extractNotionId content with
            | some id => mapSet m id f
            | none => m) acc,
        q.2 ∈ S ∧ ∃ c, fsLookup fs q.2 = some c ∧ extractNotionId c = some q.1 := by
    intro fl
    induction fl with
    | nil => intro S acc hacc _ q hql; exact hacc q hql
    | cons f t ih =>
      intro S acc hacc hfl q hql
      simp only [List.foldl_cons] at hql
      refine ih S _ ?_ (fun g hg => hfl g (List.mem_cons_of_mem _ hg)) q hql
      intro r hr
      cases hc : fsLookup fs f with
      | none =>
        simp only [hc] at hr
        exact hacc r hr
      | some content =>
        simp only [hc] at hr
        cases hid : extractNotionId content with
        | none =>
          simp only [hid] at hr
          exact hacc r hr
        | some id =>
          simp only [hid] at hr
          rcases mapSet_mem hr with h2 | h2
          · exact hacc r h2
          · subst h2
            exact ⟨hfl f (List.mem_cons_self _ _), content, hc, hid⟩
  intro q hq
  exact aux files files [] (by simp) (fun f hf => hf) q hq

/-- Processing one page never changes the binding of a name without the
.md extension, because every delete targets an indexed .md filename and
every write targets a generated .md filename. -/
theorem processPage_frame (env : Env) (files : List String)
    (idx : List (String × String)) (st : SyncState) (p : NPage)
    (hidx : ∀ q ∈ idx, jsEndsWith q.2 ".md" = true)
    (n : String) (hn : jsEndsWith n ".md" = false) :
    fsLookup (processPage env files idx st p).fs n = fsLookup st.fs n := by
  cases hE : extractMetaE env.today p with
  | error e => simp [processPage, hE]
  | ok m =>
    cases hB : env.blocksOf p.id with
    | error e =>
      simp only [processPage, hE]
      rw [hB]
    | ok blocks =>
      have hfn : n ≠ postFilename m.date m.slug := by
        intro hEq
        have hmd := jsEndsWith_postFilename m.date m.slug
        rw [← hEq, hn] at hmd
        exact absurd hmd (by decide)
      simp only [processPage, hE]
      rw [hB]
      cases hlk : List.lookup p.id idx with
      | none =>
        simp only [hlk]
        repeat' split
        all_goals first
          | rfl
          | (rw [fsLookup_fsWrite_ne _ _ _ _ hfn])
      | some pf =>
        have hpf : n ≠ pf := by
          intro hEq
          have hmd := hidx (p.id, pf) (mem_of_lookup _ _ _ hlk)
          rw [← hEq, hn] at hmd
          exact absurd hmd (by decide)
        simp only [hlk]
        by_cases hren : pf ≠ postFilename m.date m.slug
        · rw [if_pos hren]
          repeat' split
          all_goals first
            | exact fsLookup_fsUnlink_ne st.fs pf n hpf
            | (rw [fsLookup_fsWrite_ne _ _ _ _ hfn]
               exact fsLookup_fsUnlink_ne st.fs pf n hpf)
        · rw [if_neg hren]
          repeat' split
          all_goals first
            | rfl
            | (rw [fsLookup_fsWrite_ne _ _ _ _ hfn])

/-- The per-page fold preserves all non-.md bindings. -/
theorem foldl_processPage_frame (env : Env) (files : List String)
    (idx : List (String × String))
    (hidx : ∀ q ∈ idx, jsEndsWith q.2 ".md" = true)
    (n : String) (hn : jsEndsWith n ".md" = false) :
    ∀ (pages : List NPage) (st : SyncState),
      fsLookup (pages.foldl (processPage env files idx) st).fs n =
        fsLookup st.fs n := by
  intro pages
  induction pages with
  | nil => intro st; rfl
  | cons p t ih =>
    intro st
    rw [List.foldl_cons, ih, processPage_frame env files idx st p hidx n hn]

/-- The stale-entry cleanup preserves all non-.md bindings, because it
only ever unlinks indexed .md filenames. -/
theorem cleanupStale_frame (processed : List String)
    (idx : List (String × String))
    (hidx : ∀ q ∈ idx, jsEndsWith q.2 ".md" = true)
    (n : String) (hn : jsEndsWith n ".md" = false) :
    ∀ fs : FileSys, fsLookup (cleanupStale processed idx fs) n = fsLookup fs n := by
  induction idx with
  | nil => intro fs; rfl
  | cons q t ih =>
    intro fs
    unfold cleanupStale
    rw [List.foldl_cons]
    by_cases hp : processed.contains q.1
    · rw [if_pos hp]
      exact ih (fun r hr => hidx r (List.mem_cons_of_mem _ hr)) fs
    · rw [if_neg hp]
      have hq : n ≠ q.2 := by
        intro hEq
        have hmd := hidx q (List.mem_cons_self _ _)
        rw [← hEq, hn] at hmd
        exact absurd hmd (by decide)
      have hres := ih (fun r hr => hidx r (List.mem_cons_of_mem _ hr)) (fsUnlink fs q.2)
      unfold cleanupStale at hres
      rw [hres]
      exact fsLookup_fsUnlink_ne fs q.2 n hq

/-- C10: a file whose name does not end in .md is never read into the
identity index — every index entry names a file from the initial .md
listing whose content pattern-matched its token — and no step of the
pass (rename deletes, writes, or stale cleanup) ever changes the binding
of a non-.md name, so such files are never deleted. -/
theorem c10_non_md_frame (env : Env) (fs0 : FileSys) :
    (∀ (id f : String),
      List.lookup id (buildIndex ((fs0.map (fun p => p.1)).filter
          (fun f => jsEndsWith f ".md")) fs0) = some f →
      jsEndsWith f ".md" = true ∧
        ∃ c, fsLookup fs0 f = some c ∧ extractNotionId c = some id) ∧
    (∀ n : String, jsEndsWith n ".md" = false →
      fsLookup (mainSync env fs0).fs n = fsLookup fs0 n) := by
  have hidx : ∀ q ∈ buildIndex ((fs0.map (fun p => p.1)).filter
      (fun f => jsEndsWith f ".md")) fs0, jsEndsWith q.2 ".md" = true := by
    intro q hq
    have h2 := buildIndex_mem _ fs0 q hq
    exact (List.mem_filter.mp h2.1).2
  constructor
  · intro id f hlk
    have hmem := mem_of_lookup _ _ _ hlk
    have h2 := buildIndex_mem _ fs0 (id, f) hmem
    exact ⟨(List.mem_filter.mp h2.1).2, h2.2⟩
  · intro n hn
    unfold mainSync
    cases hL : env.listing with
    | error e => rfl
    | ok pages =>
      simp only []
      rw [cleanupStale_frame _ _ hidx n hn,
        foldl_processPage_frame env _ _ hidx n hn pages]

/-- Witness for c10_non_md_frame: a text file's binding survives a pass. -/
theorem c10_non_md_frame_witness :
    fsLookup (mainSync emptyEnv [("notes.txt", "x")]).fs "notes.txt" =
      fsLookup [("notes.txt", "x")] "notes.txt" :=
  (c10_non_md_frame emptyEnv [("notes.txt", "x")]).2 "notes.txt" (by decide)
